import Mathlib

/-!
Verification of the dividend screener in `src/main.py` against its
specification.

Modelling conventions:

* Calendar dates are integers counting days from a fixed Monday epoch, so
  Python's `datetime.weekday()` is `d % 7` (Monday = 0, ..., Sunday = 6) and
  `timedelta(days=1)` is `+ 1`.
* Prices, volumes and rates are rationals.
* The two network calls (`requests.get` inside `get_dividend_day`, and
  `yf.Ticker(...).history()` inside `update_stock_data`) return external data;
  they are modelled as explicit function parameters supplying the fetched
  rows, so every theorem quantifies over the possible responses.
* A pandas operation that raises is modelled by `Option` with `none` for the
  raised error; a pandas cell holding NaN (the rolling mean on a short
  series) is modelled by `Option ℚ` with `none` for NaN.
-/

/-- Test `current_date.weekday() < 5` used in `add_business_days` (line 26)
and `get_dividend_days` (line 90): Monday through Friday are weekdays. -/
def isWeekday (d : ℤ) : Bool := decide (d % 7 < 5)

/-- Fuel-indexed unfolding of the while-loop of `add_business_days`
(`src/main.py` lines 21-29): while `days_added < business_days`, advance
`current_date` by one calendar day, counting the day when it is a weekday.
`none` models the loop not having finished within `fuel` iterations; the
guard is tested before any fuel is consumed, exactly as the `while` guard
is tested before the body runs. -/
def addBDLoop : ℕ → ℤ → ℤ → ℤ → Option ℤ
  | 0, current, daysAdded, businessDays =>
      if daysAdded < businessDays then none else some current
  | fuel + 1, current, daysAdded, businessDays =>
      if daysAdded < businessDays then
        if isWeekday (current + 1) then
          addBDLoop fuel (current + 1) (daysAdded + 1) businessDays
        else
          addBDLoop fuel (current + 1) daysAdded businessDays
      else some current

/-- The function `add_business_days` (`src/main.py` lines 10-29), starting the
loop at `current_date = start_date`, `days_added = 0`.  The fuel
`3 * businessDays.toNat` is proved sufficient in `addBDLoop_isSome`. -/
def add_business_days (startDate : ℤ) (businessDays : ℤ) : Option ℤ :=
  addBDLoop (3 * businessDays.toNat) startDate 0 businessDays

/-- Number of weekdays among the `k` days `c + 1, c + 2, ..., c + k`. -/
def weekdaysAfter (c : ℤ) : ℕ → ℕ
  | 0 => 0
  | k + 1 => weekdaysAfter c k + (if isWeekday (c + ((k : ℤ) + 1)) then 1 else 0)

theorem weekdaysAfter_shift (c : ℤ) : ∀ k : ℕ,
    weekdaysAfter c (k + 1) =
      (if isWeekday (c + 1) then 1 else 0) + weekdaysAfter (c + 1) k := by
  intro k
  induction k with
  | zero =>
    simp [weekdaysAfter]
  | succ k ih =>
    have e1 : c + ((k : ℤ) + 1 + 1) = (c + 1) + ((k : ℤ) + 1) := by ring
    simp only [weekdaysAfter] at *
    push_cast
    rw [ih, e1]
    omega

/-- Among any three consecutive days at least the last is a weekday when the
first two are not (two consecutive non-weekdays must be Saturday and
Sunday). -/
theorem weekday_of_two_gaps (c : ℤ) (h1 : ¬ isWeekday (c + 1) = true)
    (h2 : ¬ isWeekday (c + 1 + 1) = true) : isWeekday (c + 1 + 1 + 1) = true := by
  simp only [isWeekday, decide_eq_true_eq] at h1 h2 ⊢
  omega

/-- Invariant of the `add_business_days` loop: when the guard is false the
loop returns the current date unchanged; otherwise it returns a weekday
strictly after the current date such that exactly `businessDays - daysAdded`
weekdays lie in between (inclusive of the result). -/
theorem addBDLoop_spec : ∀ (fuel : ℕ) (c a b r : ℤ),
    addBDLoop fuel c a b = some r →
    (¬ a < b → r = c) ∧
    (a < b → c < r ∧ isWeekday r = true ∧
      a + (weekdaysAfter c (r - c).toNat : ℤ) = b) := by
  intro fuel
  induction fuel with
  | zero =>
    intro c a b r h
    simp only [addBDLoop] at h
    split at h
    · exact absurd h (by simp)
    · next hab =>
      exact ⟨fun _ => (Option.some.inj h).symm, fun hlt => absurd hlt hab⟩
  | succ f ih =>
    intro c a b r h
    simp only [addBDLoop] at h
    split at h
    · next hab =>
      refine ⟨fun hn => absurd hab hn, fun _ => ?_⟩
      by_cases hw : isWeekday (c + 1) = true
      · rw [if_pos hw] at h
        obtain ⟨h1, h2⟩ := ih (c + 1) (a + 1) b r h
        by_cases hab2 : a + 1 < b
        · obtain ⟨hcr, hwr, hcount⟩ := h2 hab2
          refine ⟨by omega, hwr, ?_⟩
          have ht : (r - c).toNat = (r - (c + 1)).toNat + 1 := by omega
          rw [ht, weekdaysAfter_shift, if_pos hw]
          push_cast at hcount ⊢
          omega
        · have hr : r = c + 1 := h1 hab2
          subst hr
          refine ⟨by omega, hw, ?_⟩
          have ht : (c + 1 - c).toNat = 1 := by omega
          rw [ht]
          have : weekdaysAfter c 1 = 1 := by
            simp [weekdaysAfter, hw]
          rw [this]
          omega
      · rw [if_neg hw] at h
        obtain ⟨h1, h2⟩ := ih (c + 1) a b r h
        obtain ⟨hcr, hwr, hcount⟩ := h2 hab
        refine ⟨by omega, hwr, ?_⟩
        have ht : (r - c).toNat = (r - (c + 1)).toNat + 1 := by omega
        rw [ht, weekdaysAfter_shift, if_neg hw]
        push_cast at hcount ⊢
        omega
    · next hab =>
      exact ⟨fun _ => (Option.some.inj h).symm, fun hlt => absurd hlt hab⟩

/-- Termination of the `add_business_days` loop: `3` units of fuel per
remaining business day suffice, because from any date the next weekday is at
most three calendar days away. -/
theorem addBDLoop_isSome : ∀ (m fuel : ℕ) (c a b : ℤ),
    (b - a).toNat = m → 3 * m ≤ fuel →
    ∃ r, addBDLoop fuel c a b = some r := by
  intro m
  induction m with
  | zero =>
    intro fuel c a b hm _
    have hab : ¬ a < b := by omega
    cases fuel with
    | zero => exact ⟨c, by simp [addBDLoop, hab]⟩
    | succ f => exact ⟨c, by simp [addBDLoop, hab]⟩
  | succ m ih =>
    intro fuel c a b hm hf
    have hab : a < b := by omega
    obtain ⟨f, rfl⟩ : ∃ f, fuel = f + 1 := ⟨fuel - 1, by omega⟩
    simp only [addBDLoop, if_pos hab]
    by_cases h1 : isWeekday (c + 1) = true
    · rw [if_pos h1]
      exact ih f (c + 1) (a + 1) b (by omega) (by omega)
    · rw [if_neg h1]
      obtain ⟨f1, rfl⟩ : ∃ f1, f = f1 + 1 := ⟨f - 1, by omega⟩
      simp only [addBDLoop, if_pos hab]
      by_cases h2 : isWeekday (c + 1 + 1) = true
      · rw [if_pos h2]
        exact ih f1 (c + 1 + 1) (a + 1) b (by omega) (by omega)
      · rw [if_neg h2]
        obtain ⟨f2, rfl⟩ : ∃ f2, f1 = f2 + 1 := ⟨f1 - 1, by omega⟩
        simp only [addBDLoop, if_pos hab]
        rw [if_pos (weekday_of_two_gaps c h1 h2)]
        exact ih f2 (c + 1 + 1 + 1) (a + 1) b (by omega) (by omega)

/-- Claim C7: `add_business_days d 0` returns `d` unchanged, and for every
`n ≥ 1` the loop terminates and its result is the `n`-th weekday strictly
after `d`: it is a weekday, lies strictly after `d`, and exactly `n` weekdays
fall in the half-open window between `d` (exclusive) and the result
(inclusive), so weekends are never counted and never returned. -/
theorem claim_C7_add_business_days (d n : ℤ) :
    add_business_days d 0 = some d ∧
    (1 ≤ n → ∀ r, add_business_days d n = some r →
      d < r ∧ isWeekday r = true ∧ (weekdaysAfter d (r - d).toNat : ℤ) = n) ∧
    (1 ≤ n → (add_business_days d n).isSome = true) := by
  refine ⟨?_, ?_, ?_⟩
  · simp [add_business_days, addBDLoop]
  · intro hn r h
    have hspec := addBDLoop_spec (3 * n.toNat) d 0 n r h
    obtain ⟨hcr, hwr, hcount⟩ := hspec.2 (by omega)
    exact ⟨hcr, hwr, by omega⟩
  · intro hn
    obtain ⟨r, hr⟩ :=
      addBDLoop_isSome n.toNat (3 * n.toNat) d 0 n (by omega) (by omega)
    rw [add_business_days, hr]
    rfl

/-- Witness for claim C7 at the concrete input `d = 0` (a Monday), `n = 2`:
the loop lands on day `2` (Wednesday), a weekday, with exactly two weekdays
in between. -/
theorem claim_C7_witness :
    add_business_days 0 0 = some 0 ∧
    ((0 : ℤ) < 2 ∧ isWeekday 2 = true ∧
      (weekdaysAfter 0 ((2 : ℤ) - 0).toNat : ℤ) = 2) ∧
    (add_business_days 0 2).isSome = true :=
  ⟨(claim_C7_add_business_days 0 2).1,
   (claim_C7_add_business_days 0 2).2.1 (by norm_num) 2 (by decide),
   (claim_C7_add_business_days 0 2).2.2 (by norm_num)⟩

/-- Claim C10: for every negative `business_days` argument the loop guard
`days_added < business_days` is false at entry, so `add_business_days`
terminates immediately and returns the start date unchanged. -/
theorem claim_C10_negative_returns_start (d n : ℤ) (h : n < 0) :
    add_business_days d n = some d := by
  have h0 : n.toNat = 0 := by omega
  have hab : ¬ (0 : ℤ) < n := by omega
  simp [add_business_days, h0, addBDLoop, hab]

/-- Witness for claim C10 at the concrete input `d = 0`, `n = -1`. -/
theorem claim_C10_witness :
    (-1 : ℤ) < 0 ∧ add_business_days 0 (-1) = some 0 :=
  ⟨by norm_num, claim_C10_negative_returns_start 0 (-1) (by norm_num)⟩

/-- One pre-enrichment row (a `DividendEvent`): the columns of the table built
by `get_dividend_day` (`src/main.py` lines 61-71) that the pipeline uses. -/
structure DivRow where
  symbol : String
  companyName : String
  dividend_Ex_Date : ℤ
  dividend_Rate : ℚ
  adr : Bool
  etf : Bool
  bond : Bool
deriving DecidableEq

/-- Loop of `get_dividend_days` (`src/main.py` lines 87-92) unrolled on the
number of days in the range: for each day, weekdays contribute one fetched
table (`dayFetch` models the network-backed `get_dividend_day`, whose result
may be empty) and weekend days are skipped without a fetch. -/
def collectGo (dayFetch : ℤ → List DivRow) : ℕ → ℤ → List (List DivRow)
  | 0, _ => []
  | k + 1, s =>
      (if isWeekday s then [dayFetch s] else []) ++ collectGo dayFetch k (s + 1)

/-- The list `dfs` accumulated by `get_dividend_days` over the range
`[s, e]`; the loop runs once per calendar day, i.e. `(e + 1 - s).toNat`
times. -/
def collectDays (dayFetch : ℤ → List DivRow) (s e : ℤ) : List (List DivRow) :=
  collectGo dayFetch (e + 1 - s).toNat s

/-- The function `get_dividend_days` (`src/main.py` lines 76-94).
`pd.concat(dfs, ignore_index=True)` raises `ValueError` when `dfs` is the
empty list; the raise is modelled by `none`.  Otherwise the collected tables
are concatenated in day order. -/
def get_dividend_days (dayFetch : ℤ → List DivRow) (s e : ℤ) :
    Option (List DivRow) :=
  let dfs := collectDays dayFetch s e
  if dfs.isEmpty then none else some dfs.flatten

theorem collectGo_all_weekend (dayFetch : ℤ → List DivRow) :
    ∀ (k : ℕ) (s : ℤ), (∀ j : ℕ, j < k → isWeekday (s + (j : ℤ)) = false) →
    collectGo dayFetch k s = [] := by
  intro k
  induction k with
  | zero => intro s _; rfl
  | succ k ih =>
    intro s h
    have h0 : isWeekday s = false := by
      have := h 0 (by omega)
      simpa using this
    have hrest : ∀ j : ℕ, j < k → isWeekday (s + 1 + (j : ℤ)) = false := by
      intro j hj
      have := h (j + 1) (by omega)
      have e1 : s + ((j : ℤ) + 1) = s + 1 + (j : ℤ) := by ring
      rw [← e1]
      simpa using this
    simp [collectGo, h0, ih (s + 1) hrest]

/-- Counterexample to claim C1 at the concrete range `[5, 6]` (a Saturday and
a Sunday): the loop collects no tables (zero fetch invocations), and the
aggregator raises the concatenation error (`none`) instead of returning an
empty table. -/
theorem claim_C1_counterexample :
    collectDays (fun _ => []) 5 6 = [] ∧
    get_dividend_days (fun _ => []) 5 6 = none := by
  constructor
  · rfl
  · rfl

/-- Claim C1 as amended: for a date range in which every day is a weekend,
`get_dividend_days` performs zero fetch invocations (no table is collected),
and then `pd.concat` on the empty list raises an error (`none`) — it does not
return an empty table. -/
theorem claim_C1_weekend_range (dayFetch : ℤ → List DivRow) (s e : ℤ)
    (h : ∀ j : ℕ, j < (e + 1 - s).toNat → isWeekday (s + (j : ℤ)) = false) :
    collectDays dayFetch s e = [] ∧ get_dividend_days dayFetch s e = none := by
  have hc : collectDays dayFetch s e = [] :=
    collectGo_all_weekend dayFetch _ s h
  refine ⟨hc, ?_⟩
  rw [get_dividend_days]
  simp [hc]

/-- Witness for the amended claim C1 at the concrete all-weekend range
`[5, 6]` with an arbitrary fetcher. -/
theorem claim_C1_witness :
    collectDays (fun _ => [⟨"AAA", "Alpha", 0, 1, false, false, false⟩]) 5 6 = [] ∧
    get_dividend_days (fun _ => [⟨"AAA", "Alpha", 0, 1, false, false, false⟩]) 5 6 = none :=
  claim_C1_weekend_range _ 5 6 (by decide)

/-- One observation of the fetched price history (`yf.Ticker(...).history()`):
the two columns `update_stock_data` reads. -/
structure Obs where
  close : ℚ
  volume : ℚ
deriving DecidableEq

/-- Pandas `series.iloc[-k]`: the element at 0-based position `len - k`.
It is only ever used here with `k ≤ 5` on series guarded to have at least 6
elements, so the default never surfaces (see `claim_C5_close_5_days_ago`). -/
def ilocNeg (l : List ℚ) (k : ℕ) : ℚ := l.getD (l.length - k) 0

/-- Python `round(x)`: round to the nearest integer, ties to the even
integer (banker rounding). -/
def pyRound (x : ℚ) : ℤ :=
  if x - Int.floor x < 1 / 2 then Int.floor x
  else if 1 / 2 < x - Int.floor x then Int.floor x + 1
  else if 2 ∣ Int.floor x then Int.floor x else Int.floor x + 1

/-- Python `round(x, 2)`: round to two decimal places, ties to even. -/
def round2 (x : ℚ) : ℚ := (pyRound (x * 100) : ℚ) / 100

/-- Pandas `series.rolling(w).mean().iloc[-1]` with the default
`min_periods = w`: NaN (modelled `none`) when fewer than `w` observations
exist, otherwise the mean of the last `w` values. -/
def rollingMeanLast (w : ℕ) (l : List ℚ) : Option ℚ :=
  if l.length < w then none else some ((l.drop (l.length - w)).sum / (w : ℚ))

/-- One row of the table built by `update_stock_data`: the input columns plus
the columns created at `src/main.py` lines 164-169 and 189-190.  `SMA_50` is
an `Option` because the 50-period rolling mean is NaN on short series; all
other created columns are initialised to `0.0`. -/
structure EnrRow where
  base : DivRow
  Close : ℚ
  Volume : ℚ
  dividend_percentage : ℚ
  last_close_volume : ℚ
  close_5_days_ago : ℚ
  SMA_50 : Option ℚ
  roc_5_pos : Bool
  above_SMA_50 : Bool
deriving DecidableEq

/-- Column initialisation of `update_stock_data` (lines 164-169): every
created numeric column starts at `0.0`.  The two boolean columns are derived
only after the loop; their value here is a placeholder. -/
def initRow (r : DivRow) : EnrRow :=
  { base := r, Close := 0, Volume := 0, dividend_percentage := 0,
    last_close_volume := 0, close_5_days_ago := 0, SMA_50 := some 0,
    roc_5_pos := false, above_SMA_50 := false }

/-- Symbol normalisation `row.symbol.replace(".", "-")` (line 172); the two
arguments are single characters, so it is a character map. -/
def normSymbol (s : String) : String :=
  String.mk (s.data.map (fun c => if c = '.' then '-' else c))

/-- Loop body of `update_stock_data` for one row (lines 171-187): fetch the
price history for the normalised symbol; when the history is empty or has
fewer than 6 observations, `continue` (the defaults stay); otherwise assign
the computed cells exactly as lines 178-187 do. -/
def enrichRow (fetch : String → List Obs) (r : DivRow) : EnrRow :=
  let hist := fetch (normSymbol r.symbol)
  let closes := hist.map Obs.close
  let volumes := hist.map Obs.volume
  if hist.isEmpty ∨ hist.length < 6 then initRow r
  else
    { initRow r with
      Close := ilocNeg closes 1,
      Volume := ilocNeg volumes 1,
      SMA_50 := rollingMeanLast 50 closes,
      dividend_percentage := round2 (r.dividend_Rate / ilocNeg closes 1 * 100),
      last_close_volume := (pyRound (ilocNeg closes 1 * ilocNeg volumes 1) : ℚ),
      close_5_days_ago := ilocNeg closes 5 }

/-- Pandas comparison of a number against a possibly-NaN cell: `x > NaN` is
`False`, never an error. -/
def gtOptQ (a : ℚ) : Option ℚ → Bool
  | none => false
  | some b => decide (b < a)

/-- Derived boolean columns (lines 189-190): `roc_5_pos` is
`Close > close_5_days_ago` and `above_SMA_50` is `Close > SMA_50` (false when
the rolling mean is NaN). -/
def addBoolCols (e : EnrRow) : EnrRow :=
  { e with roc_5_pos := decide (e.close_5_days_ago < e.Close),
           above_SMA_50 := gtOptQ e.Close e.SMA_50 }

/-- The state of the table after the enrichment loop and the boolean-column
derivation (lines 164-190): every input row, enriched. -/
def enrichedAll (fetch : String → List Obs) (df : List DivRow) : List EnrRow :=
  (df.map (enrichRow fetch)).map addBoolCols

/-- Filter conditions of lines 192-193: keep rows with
`last_close_volume > 1_000_000` and `dividend_percentage > 3`. -/
def passesFilters (e : EnrRow) : Bool :=
  decide (1000000 < e.last_close_volume) && decide (3 < e.dividend_percentage)

/-- Comparison key of `df.sort_values(by="dividend_Ex_Date")` (line 195). -/
def leByExDate (a b : EnrRow) : Bool :=
  decide (a.base.dividend_Ex_Date ≤ b.base.dividend_Ex_Date)

/-- The value returned by `update_stock_data` (`src/main.py` lines 154-195):
the enriched table filtered by the two thresholds and sorted ascending by
ex-dividend date.  Pandas `sort_values` keeps exactly the same multiset of
rows and guarantees no particular order among equal keys; a merge sort
realises that contract. -/
def update_stock_data (fetch : String → List Obs) (df : List DivRow) :
    List EnrRow :=
  ((enrichedAll fetch df).filter passesFilters).mergeSort leByExDate

/-- Column-aware view of the caller's DataFrame object: `extra = none` models
the object before the computed columns exist. -/
structure PTable where
  base : List DivRow
  extra : Option (List EnrRow)
deriving DecidableEq

/-- The caller's DataFrame object before `update_stock_data` is called: only
the aggregated calendar columns exist. -/
def tableBefore (df : List DivRow) : PTable := ⟨df, none⟩

/-- The state of the caller's DataFrame object after `update_stock_data`
returns: lines 164-190 create columns and assign cells on the argument
itself (no copy is taken); only the filter steps (192-193) and the sort
(195) build new frames, and those are bound to the local name `df`.  So the
caller's object afterwards holds every input row, fully enriched and
unfiltered. -/
def tableAfter (fetch : String → List Obs) (df : List DivRow) : PTable :=
  ⟨df, some (enrichedAll fetch df)⟩

/-- Concrete sample: a dividend-calendar row used by several witnesses. -/
def goodRow : DivRow := ⟨"AT.B", "Alpha Corp", 10, 2, false, false, false⟩

/-- Concrete sample: a history fetch returning 6 observations at close 40,
volume 500000 for every symbol. -/
def goodFetch : String → List Obs := fun _ =>
  [⟨40, 500000⟩, ⟨40, 500000⟩, ⟨40, 500000⟩, ⟨40, 500000⟩, ⟨40, 500000⟩,
   ⟨40, 500000⟩]

/-- Concrete sample: the enriched row produced from `goodRow` under
`goodFetch` (yield 5%, dollar volume 20,000,000). -/
def goodEnr : EnrRow := addBoolCols (enrichRow goodFetch goodRow)

/-- Membership in the result of `update_stock_data`: exactly the enriched rows
that pass both thresholds, reordered by the sort. -/
theorem mem_update_stock_data {fetch : String → List Obs} {df : List DivRow}
    {e : EnrRow} :
    e ∈ update_stock_data fetch df ↔
      e ∈ enrichedAll fetch df ∧ passesFilters e = true := by
  simp [update_stock_data, List.mem_mergeSort, List.mem_filter]

/-- Every row of the enriched table comes from enriching some input row. -/
theorem mem_enrichedAll {fetch : String → List Obs} {df : List DivRow}
    {e : EnrRow} :
    e ∈ enrichedAll fetch df ↔
      ∃ r ∈ df, addBoolCols (enrichRow fetch r) = e := by
  simp [enrichedAll, List.map_map, List.mem_map, Function.comp]

theorem base_addBoolCols (e : EnrRow) : (addBoolCols e).base = e.base := rfl

theorem enrichRow_base (fetch : String → List Obs) (r : DivRow) :
    (enrichRow fetch r).base = r := by
  simp only [enrichRow]
  split <;> rfl

/-- The `continue` branch of the loop (line 176): the row keeps its column
defaults. -/
theorem enrichRow_skip (fetch : String → List Obs) (r : DivRow)
    (h : (fetch (normSymbol r.symbol)).isEmpty = true ∨
      (fetch (normSymbol r.symbol)).length < 6) :
    enrichRow fetch r = initRow r := by
  simp only [enrichRow]
  rw [if_pos h]

/-- The assignment branch of the loop (lines 178-187), spelled out. -/
theorem enrichRow_not_skip (fetch : String → List Obs) (r : DivRow)
    (h : ¬ ((fetch (normSymbol r.symbol)).isEmpty = true ∨
      (fetch (normSymbol r.symbol)).length < 6)) :
    enrichRow fetch r =
      { base := r,
        Close := ilocNeg ((fetch (normSymbol r.symbol)).map Obs.close) 1,
        Volume := ilocNeg ((fetch (normSymbol r.symbol)).map Obs.volume) 1,
        dividend_percentage := round2 (r.dividend_Rate /
          ilocNeg ((fetch (normSymbol r.symbol)).map Obs.close) 1 * 100),
        last_close_volume :=
          (pyRound (ilocNeg ((fetch (normSymbol r.symbol)).map Obs.close) 1 *
            ilocNeg ((fetch (normSymbol r.symbol)).map Obs.volume) 1) : ℚ),
        close_5_days_ago :=
          ilocNeg ((fetch (normSymbol r.symbol)).map Obs.close) 5,
        SMA_50 := rollingMeanLast 50
          ((fetch (normSymbol r.symbol)).map Obs.close),
        roc_5_pos := false, above_SMA_50 := false } := by
  simp only [enrichRow]
  rw [if_neg h]
  rfl

theorem pyRound_zero : pyRound 0 = 0 := by
  norm_num [pyRound]

/-- A row left at its defaults fails the dollar-volume threshold. -/
theorem passes_initRow_false (r : DivRow) :
    passesFilters (addBoolCols (initRow r)) = false := by
  simp only [passesFilters, addBoolCols, initRow]
  norm_num

/-- A row that passes the filters was not skipped by the loop. -/
theorem passes_not_skip (fetch : String → List Obs) (r : DivRow)
    (h : passesFilters (addBoolCols (enrichRow fetch r)) = true) :
    ¬ ((fetch (normSymbol r.symbol)).isEmpty = true ∨
      (fetch (normSymbol r.symbol)).length < 6) := by
  intro hs
  rw [enrichRow_skip fetch r hs, passes_initRow_false r] at h
  exact Bool.false_ne_true h

/-- Concrete sample: a calendar row whose fetched history has six
observations with a zero latest close. -/
def zeroRow : DivRow := ⟨"ZVC", "Zero Corp", 11, 1, false, false, false⟩

/-- Concrete sample: a history fetch returning 6 observations whose closes
are all zero. -/
def zeroFetch : String → List Obs := fun _ =>
  [⟨0, 1000⟩, ⟨0, 1000⟩, ⟨0, 1000⟩, ⟨0, 1000⟩, ⟨0, 1000⟩, ⟨0, 1000⟩]

/-- Counterexample to claim C2: under `zeroFetch` the row `zeroRow` is not
skipped by the data-sufficiency check — the only guard in the code — and so
reaches the yield computation of line 181 with a zero latest close as the
denominator.  No zero-close guard exists. -/
theorem claim_C2_counterexample :
    ¬ ((zeroFetch (normSymbol zeroRow.symbol)).isEmpty = true ∨
        (zeroFetch (normSymbol zeroRow.symbol)).length < 6) ∧
    ilocNeg ((zeroFetch (normSymbol zeroRow.symbol)).map Obs.close) 1 = 0 ∧
    (enrichRow zeroFetch zeroRow).Close = 0 := by
  refine ⟨by decide, ?_, ?_⟩
  · simp [zeroFetch, normSymbol, zeroRow, ilocNeg]
  · simp [enrichRow, zeroFetch, normSymbol, zeroRow, initRow, ilocNeg]

/-- Claim C2 as amended: `update_stock_data` has no zero-close guard — a row
with at least six observations and a zero latest close does reach the yield
computation (see the counterexample) — but every row whose latest close is
zero ends with a dollar volume of `0` and is therefore excluded by the
`> 1_000_000` filter, so a zero close degrades to exclusion of the row, not
to an error in the output. -/
theorem claim_C2_zero_close_excluded (fetch : String → List Obs) (r : DivRow)
    (h : ilocNeg ((fetch (normSymbol r.symbol)).map Obs.close) 1 = 0) :
    passesFilters (addBoolCols (enrichRow fetch r)) = false := by
  by_cases hs : (fetch (normSymbol r.symbol)).isEmpty = true ∨
      (fetch (normSymbol r.symbol)).length < 6
  · rw [enrichRow_skip fetch r hs, passes_initRow_false r]
  · rw [enrichRow_not_skip fetch r hs]
    simp only [passesFilters, addBoolCols, h, zero_mul, pyRound_zero]
    norm_num

/-- Witness for the amended claim C2 at the concrete zero-close input. -/
theorem claim_C2_witness :
    ilocNeg ((zeroFetch (normSymbol zeroRow.symbol)).map Obs.close) 1 = 0 ∧
    passesFilters (addBoolCols (enrichRow zeroFetch zeroRow)) = false := by
  have h : ilocNeg ((zeroFetch (normSymbol zeroRow.symbol)).map Obs.close) 1 = 0 := by
    simp [zeroFetch, normSymbol, zeroRow, ilocNeg]
  exact ⟨h, claim_C2_zero_close_excluded zeroFetch zeroRow h⟩

/-- Counterexample to claim C3: a ticker with exactly six observations is
enriched, but its 50-period SMA field is the missing value (NaN), because
`rolling(50).mean()` needs 50 observations — so not all computed fields are
defined, contrary to the claim. -/
theorem claim_C3_counterexample :
    (goodFetch (normSymbol goodRow.symbol)).length = 6 ∧
    (enrichRow goodFetch goodRow).SMA_50 = none := by
  refine ⟨by decide, ?_⟩
  simp [enrichRow, goodFetch, goodRow, normSymbol, initRow, rollingMeanLast]

/-- Claim C3 as amended: a ticker with five (or fewer than six) observations
is skipped and can never appear in the output — every output row's fetched
history has at least six observations; a ticker with exactly six observations
has its latest close, latest volume, close five periods back, yield and
dollar volume computed, but its 50-period SMA is the missing value (NaN),
and it appears in the output only if it also passes the two filters. -/
theorem claim_C3_short_history :
    (∀ (fetch : String → List Obs) (df : List DivRow) (e : EnrRow),
      e ∈ update_stock_data fetch df →
      6 ≤ (fetch (normSymbol e.base.symbol)).length) ∧
    (∀ (fetch : String → List Obs) (r : DivRow),
      (fetch (normSymbol r.symbol)).length = 6 →
      enrichRow fetch r =
        { base := r,
          Close := ilocNeg ((fetch (normSymbol r.symbol)).map Obs.close) 1,
          Volume := ilocNeg ((fetch (normSymbol r.symbol)).map Obs.volume) 1,
          dividend_percentage := round2 (r.dividend_Rate /
            ilocNeg ((fetch (normSymbol r.symbol)).map Obs.close) 1 * 100),
          last_close_volume :=
            (pyRound (ilocNeg ((fetch (normSymbol r.symbol)).map Obs.close) 1 *
              ilocNeg ((fetch (normSymbol r.symbol)).map Obs.volume) 1) : ℚ),
          close_5_days_ago :=
            ilocNeg ((fetch (normSymbol r.symbol)).map Obs.close) 5,
          SMA_50 := none,
          roc_5_pos := false, above_SMA_50 := false }) := by
  constructor
  · intro fetch df e he
    obtain ⟨hmem, hpass⟩ := mem_update_stock_data.mp he
    obtain ⟨r, hr, rfl⟩ := mem_enrichedAll.mp hmem
    rw [base_addBoolCols, enrichRow_base]
    have hns := passes_not_skip fetch r hpass
    omega
  · intro fetch r h
    have hns : ¬ ((fetch (normSymbol r.symbol)).isEmpty = true ∨
        (fetch (normSymbol r.symbol)).length < 6) := by
      rintro (hE | hL)
      · rw [List.isEmpty_iff] at hE
        rw [hE] at h
        simp at h
      · omega
    rw [enrichRow_not_skip fetch r hns]
    have hsma : rollingMeanLast 50 ((fetch (normSymbol r.symbol)).map Obs.close)
        = none := by
      rw [rollingMeanLast, if_pos]
      rw [List.length_map, h]
      norm_num
    rw [hsma]

/-- Evaluation of the sample enriched row: yield 5%, dollar volume
20,000,000, missing 50-period SMA. -/
theorem goodEnr_eval : goodEnr =
    { base := goodRow, Close := 40, Volume := 500000,
      dividend_percentage := 5, last_close_volume := 20000000,
      close_5_days_ago := 40, SMA_50 := none,
      roc_5_pos := false, above_SMA_50 := false } := by
  simp [goodEnr, enrichRow, goodFetch, goodRow, initRow, ilocNeg,
    rollingMeanLast, round2, pyRound, normSymbol, addBoolCols, gtOptQ]
  norm_num

/-- The sample enriched row is retained by `update_stock_data`. -/
theorem goodEnr_mem : goodEnr ∈ update_stock_data goodFetch [goodRow] := by
  rw [mem_update_stock_data]
  constructor
  · simp [enrichedAll, goodEnr]
  · rw [goodEnr_eval]
    simp only [passesFilters]
    norm_num

/-- Witness for the amended claim C3: the concrete six-observation ticker has
at least six observations when retained, and its enrichment assigns every
field with the SMA missing. -/
theorem claim_C3_witness :
    6 ≤ (goodFetch (normSymbol goodEnr.base.symbol)).length ∧
    enrichRow goodFetch goodRow =
      { base := goodRow,
        Close := ilocNeg ((goodFetch (normSymbol goodRow.symbol)).map Obs.close) 1,
        Volume := ilocNeg ((goodFetch (normSymbol goodRow.symbol)).map Obs.volume) 1,
        dividend_percentage := round2 (goodRow.dividend_Rate /
          ilocNeg ((goodFetch (normSymbol goodRow.symbol)).map Obs.close) 1 * 100),
        last_close_volume :=
          (pyRound (ilocNeg ((goodFetch (normSymbol goodRow.symbol)).map Obs.close) 1 *
            ilocNeg ((goodFetch (normSymbol goodRow.symbol)).map Obs.volume) 1) : ℚ),
        close_5_days_ago :=
          ilocNeg ((goodFetch (normSymbol goodRow.symbol)).map Obs.close) 5,
        SMA_50 := none,
        roc_5_pos := false, above_SMA_50 := false } :=
  ⟨claim_C3_short_history.1 goodFetch [goodRow] goodEnr goodEnr_mem,
   claim_C3_short_history.2 goodFetch goodRow (by decide)⟩

/-- Concrete sample: a calendar row whose enrichment lands exactly on the
dollar-volume boundary (close 2, volume 500000, rate 10). -/
def boundaryRow : DivRow := ⟨"BDY", "Boundary Corp", 12, 10, false, false, false⟩

/-- Concrete sample: a history fetch returning 6 observations at close 2,
volume 500000, so the dollar volume is exactly 1,000,000. -/
def boundaryFetch : String → List Obs := fun _ =>
  [⟨2, 500000⟩, ⟨2, 500000⟩, ⟨2, 500000⟩, ⟨2, 500000⟩, ⟨2, 500000⟩,
   ⟨2, 500000⟩]

/-- Concrete sample: the enriched boundary row. -/
def boundaryEnr : EnrRow := addBoolCols (enrichRow boundaryFetch boundaryRow)

/-- The boundary sample has a dollar volume of exactly 1,000,000. -/
theorem boundaryEnr_lcv : boundaryEnr.last_close_volume = 1000000 := by
  simp [boundaryEnr, enrichRow, boundaryFetch, boundaryRow, initRow, ilocNeg,
    pyRound, normSymbol, addBoolCols]
  norm_num

/-- Claim C4: every row retained by `update_stock_data` has dollar volume
strictly greater than 1,000,000 and yield strictly greater than 3; a row
whose dollar volume is exactly 1,000,000, or whose yield is exactly 3, is
excluded. -/
theorem claim_C4_filter_thresholds :
    (∀ (fetch : String → List Obs) (df : List DivRow) (e : EnrRow),
      e ∈ update_stock_data fetch df →
      1000000 < e.last_close_volume ∧ 3 < e.dividend_percentage) ∧
    (∀ (fetch : String → List Obs) (df : List DivRow) (e : EnrRow),
      e.last_close_volume = 1000000 ∨ e.dividend_percentage = 3 →
      e ∉ update_stock_data fetch df) := by
  have h1 : ∀ (fetch : String → List Obs) (df : List DivRow) (e : EnrRow),
      e ∈ update_stock_data fetch df →
      1000000 < e.last_close_volume ∧ 3 < e.dividend_percentage := by
    intro fetch df e he
    have hpass := (mem_update_stock_data.mp he).2
    simp only [passesFilters, Bool.and_eq_true, decide_eq_true_eq] at hpass
    exact hpass
  refine ⟨h1, ?_⟩
  intro fetch df e hb he
  obtain ⟨hv, hy⟩ := h1 fetch df e he
  rcases hb with h | h
  · rw [h] at hv
    exact lt_irrefl _ hv
  · rw [h] at hy
    exact lt_irrefl _ hy

/-- Witness for claim C4: the good sample is retained with strictly larger
values, and the exact-boundary sample is excluded. -/
theorem claim_C4_witness :
    (1000000 < goodEnr.last_close_volume ∧ 3 < goodEnr.dividend_percentage) ∧
    boundaryEnr ∉ update_stock_data boundaryFetch [boundaryRow] :=
  ⟨claim_C4_filter_thresholds.1 goodFetch [goodRow] goodEnr goodEnr_mem,
   claim_C4_filter_thresholds.2 boundaryFetch [boundaryRow] boundaryEnr
     (Or.inl boundaryEnr_lcv)⟩

/-- Claim C5: for a ticker with at least six observations the cell stored as
`close_5_days_ago` (line 187, `iloc[-5]`) is the element at 0-based index
`len - 5` of the close series. -/
theorem claim_C5_close_5_days_ago (fetch : String → List Obs) (r : DivRow)
    (h : 6 ≤ (fetch (normSymbol r.symbol)).length)
    (hi : (fetch (normSymbol r.symbol)).length - 5 <
      ((fetch (normSymbol r.symbol)).map Obs.close).length) :
    (enrichRow fetch r).close_5_days_ago =
      ((fetch (normSymbol r.symbol)).map Obs.close).get
        ⟨(fetch (normSymbol r.symbol)).length - 5, hi⟩ := by
  have hns : ¬ ((fetch (normSymbol r.symbol)).isEmpty = true ∨
      (fetch (normSymbol r.symbol)).length < 6) := by
    rintro (hE | hL)
    · rw [List.isEmpty_iff] at hE
      rw [hE] at h
      simp at h
    · omega
  rw [enrichRow_not_skip fetch r hns]
  show ilocNeg ((fetch (normSymbol r.symbol)).map Obs.close) 5 = _
  rw [ilocNeg]
  have hidx : ((fetch (normSymbol r.symbol)).map Obs.close).length - 5
      = (fetch (normSymbol r.symbol)).length - 5 := by
    rw [List.length_map]
  rw [hidx, List.getD_eq_getElem _ _ hi, List.get_eq_getElem]

/-- Witness for claim C5 at the concrete six-observation sample: stored cell
equals the element at index `6 - 5 = 1`. -/
theorem claim_C5_witness :
    (enrichRow goodFetch goodRow).close_5_days_ago =
      ((goodFetch (normSymbol goodRow.symbol)).map Obs.close).get
        ⟨(goodFetch (normSymbol goodRow.symbol)).length - 5, by decide⟩ :=
  claim_C5_close_5_days_ago goodFetch goodRow (by decide) (by decide)

/-- Counterexample to claim C6 at a concrete one-row table: after the call
the caller's DataFrame object differs from the object that was passed in —
the computed columns now exist on it. -/
theorem claim_C6_counterexample :
    tableAfter goodFetch [goodRow] ≠ tableBefore [goodRow] := by
  simp [tableAfter, tableBefore]

/-- Claim C6 as amended: `update_stock_data` does not copy its argument — it
mutates the caller's table in place, adding the computed columns (afterwards
the object holds every input row fully enriched and unfiltered); the
pre-existing base columns, however, are left unchanged, and the filtered,
sorted return value is a separate table. -/
theorem claim_C6_caller_table_mutated (fetch : String → List Obs)
    (df : List DivRow) :
    tableAfter fetch df ≠ tableBefore df ∧
    (tableAfter fetch df).base = df ∧
    (enrichedAll fetch df).map EnrRow.base = df := by
  refine ⟨by simp [tableAfter, tableBefore], rfl, ?_⟩
  have hb : ∀ r : DivRow, (addBoolCols (enrichRow fetch r)).base = r := by
    intro r
    rw [base_addBoolCols, enrichRow_base]
  simp only [enrichedAll, List.map_map]
  calc List.map (EnrRow.base ∘ addBoolCols ∘ enrichRow fetch) df
      = List.map id df := List.map_congr_left (fun a _ => hb a)
    _ = df := List.map_id df

/-- Witness for the amended claim C6 at the concrete one-row table. -/
theorem claim_C6_witness :
    tableAfter goodFetch [goodRow] ≠ tableBefore [goodRow] ∧
    (tableAfter goodFetch [goodRow]).base = [goodRow] ∧
    (enrichedAll goodFetch [goodRow]).map EnrRow.base = [goodRow] :=
  claim_C6_caller_table_mutated goodFetch [goodRow]

/-- Claim C8: every retained row's yield cell equals
`round(dividend_Rate / latest_close * 100, 2)` and its dollar-volume cell
equals `round(latest_close * latest_volume)`, both in terms of the row's own
stored close and volume; in particular rate 2 with close 40 gives yield 5,
and close 40 with volume 500,000 gives dollar volume 20,000,000. -/
theorem claim_C8_yield_and_dollar_volume :
    (∀ (fetch : String → List Obs) (df : List DivRow) (e : EnrRow),
      e ∈ update_stock_data fetch df →
      e.dividend_percentage = round2 (e.base.dividend_Rate / e.Close * 100) ∧
      e.last_close_volume = (pyRound (e.Close * e.Volume) : ℚ)) ∧
    round2 (2 / 40 * 100) = 5 ∧
    pyRound (40 * 500000) = 20000000 := by
  refine ⟨?_, by norm_num [round2, pyRound], by norm_num [pyRound]⟩
  intro fetch df e he
  obtain ⟨hmem, hpass⟩ := mem_update_stock_data.mp he
  obtain ⟨r, hr, rfl⟩ := mem_enrichedAll.mp hmem
  have hns := passes_not_skip fetch r hpass
  rw [enrichRow_not_skip fetch r hns]
  exact ⟨rfl, rfl⟩

/-- Witness for claim C8 at the concrete retained sample row. -/
theorem claim_C8_witness :
    goodEnr.dividend_percentage =
      round2 (goodEnr.base.dividend_Rate / goodEnr.Close * 100) ∧
    goodEnr.last_close_volume = (pyRound (goodEnr.Close * goodEnr.Volume) : ℚ) :=
  claim_C8_yield_and_dollar_volume.1 goodFetch [goodRow] goodEnr goodEnr_mem

/-- Claim C9: the table returned by `update_stock_data` is sorted ascending
by ex-dividend date; the sort is a total function on any input, so equal
dates reorder freely but never produce an error. -/
theorem claim_C9_sorted_by_ex_date (fetch : String → List Obs)
    (df : List DivRow) :
    List.Sorted (fun a b : EnrRow =>
      a.base.dividend_Ex_Date ≤ b.base.dividend_Ex_Date)
      (update_stock_data fetch df) := by
  have htrans : ∀ a b c : EnrRow, leByExDate a b = true → leByExDate b c = true →
      leByExDate a c = true := by
    intro a b c hab hbc
    simp only [leByExDate, decide_eq_true_eq] at hab hbc ⊢
    omega
  have htotal : ∀ a b : EnrRow, (leByExDate a b || leByExDate b a) = true := by
    intro a b
    simp only [leByExDate, Bool.or_eq_true, decide_eq_true_eq]
    omega
  have h := List.sorted_mergeSort htrans htotal
    ((enrichedAll fetch df).filter passesFilters)
  exact h.imp (fun hab => by
    simpa only [leByExDate, decide_eq_true_eq] using hab)
